import Mathlib

set_option maxRecDepth 16000

set_option maxHeartbeats 4000000

/-!
# Embedding of the claude-code-lb selection and circuit-breaking core

Shallow embedding of the Go sources of the claude-code-lb reverse proxy:
the server data model (pkg/types/types.go), the per-server health state
machine shared by both selector variants (internal/selector/fallback.go
and internal/selector/load_balancer.go), the passive recovery sweeper
(internal/health/checker.go), the forwarding pipeline's status
classification and header handling, and the SSE usage parser
(proxy package, forwardRequest and friends).

Modelling conventions:
* Times are integers counting nanoseconds since the epoch; Go's zero
  time.Time is 0 and now.After(t) is t < now.
* Go maps carrying health state are total functions with the Go zero
  value (false / zero time / 0) as default; where structural
  computation is needed (smooth-weighted currentWeight map) an
  association list mirrors the map.
* Go int / int64 arithmetic is modelled on Int; every quantity that
  appears in the theorems below stays far inside the int64 range, so
  no wrap-around is modelled.
-/

/-- pkg/types/types.go: UpstreamServer.  downUntil is the mutable
DownUntil struct field (zero value = never down). -/
structure UpstreamServer where
  url : String
  weight : Int
  priority : Int
  token : String
  downUntil : Int
  deriving Repr, DecidableEq, Inhabited

def nsPerSecond : Int := 1000000000

def nsPerMinute : Int := 60 * nsPerSecond

def nsPerHour : Int := 3600 * nsPerSecond

/-- load_balancer.go 172-181 / fallback.go 125-134: the cooldown (in
nanoseconds) applied by MarkServerDown, as a function of the configured
cooldown seconds and the post-increment failure count.  The 10-minute
cap is only applied inside the `failures > 1` branch. -/
def cooldownDuration (cfgCooldown failures : Int) : Int :=
  let base := cfgCooldown * nsPerSecond
  if 1 < failures then
    let dyn := base * failures
    if 10 * nsPerMinute < dyn then 10 * nsPerMinute else dyn
  else base

/-- The selector-owned runtime maps serverStatus, serverDownUntil and
failureCount.  The map-update logic is identical in both selector
variants (fallback.go 115-211 and load_balancer.go 162-265), so it is
embedded once. -/
structure HealthState where
  status : String → Bool
  downUntil : String → Int
  failCount : String → Int

/-- Constructor loops of NewLoadBalancer / NewFallbackSelector: every
configured URL starts available with zero cooldown and zero failures;
URLs never configured read the Go map zero values. -/
def initHealth (urls : List String) : HealthState where
  status := fun u => decide (u ∈ urls)
  downUntil := fun _ => 0
  failCount := fun _ => 0

/-- MarkServerDown (load_balancer.go 162-189, fallback.go 115-142):
clear the status flag, increment the failure count, and set the
cooldown-until map entry to now plus the dynamic cooldown. -/
def markServerDown (cfgCooldown : Int) (st : HealthState) (url : String) (now : Int) :
    HealthState :=
  let failures := st.failCount url + 1
  { status := fun u => if u = url then false else st.status u
    failCount := fun u => if u = url then failures else st.failCount u
    downUntil := fun u =>
      if u = url then now + cooldownDuration cfgCooldown failures else st.downUntil u }

/-- MarkServerHealthy (load_balancer.go 247-265, fallback.go 193-211):
reset a positive failure count; if the server is flagged unavailable,
flag it available and clear its cooldown. -/
def markServerHealthy (st : HealthState) (url : String) : HealthState :=
  let st1 : HealthState :=
    if 0 < st.failCount url then
      { st with failCount := fun u => if u = url then 0 else st.failCount u }
    else st
  if st1.status url = false then
    { st1 with
      status := fun u => if u = url then true else st1.status u
      downUntil := fun u => if u = url then 0 else st1.downUntil u }
  else st1

theorem markServerHealthy_status (st : HealthState) (url u : String) :
    (markServerHealthy st url).status u = if u = url then true else st.status u := by
  by_cases hf : 0 < st.failCount url <;> by_cases hs : st.status url <;>
    by_cases hc : u = url <;> simp [markServerHealthy, hf, hs, hc]

theorem markServerHealthy_downUntil (st : HealthState) (url u : String) :
    (markServerHealthy st url).downUntil u =
      if st.status url = false ∧ u = url then 0 else st.downUntil u := by
  by_cases hf : 0 < st.failCount url <;> by_cases hs : st.status url <;>
    by_cases hc : u = url <;> simp [markServerHealthy, hf, hs, hc]

/-- RecoverServer (load_balancer.go 234-244, fallback.go 180-190):
unconditionally flag available and clear the cooldown, leaving the
failure count untouched. -/
def recoverServer (st : HealthState) (url : String) : HealthState :=
  { st with
    status := fun u => if u = url then true else st.status u
    downUntil := fun u => if u = url then 0 else st.downUntil u }

/-- isServerAvailable (load_balancer.go 209-212, fallback.go 162-165):
status flag set and cooldown expired. -/
def isServerAvailable (st : HealthState) (url : String) (now : Int) : Bool :=
  st.status url && decide (st.downUntil url < now)

/-- All states reachable from the constructor state by the three health
transitions offered by the selector interface. -/
inductive ReachableHealth (cfgCooldown : Int) (urls : List String) : HealthState → Prop
  | init : ReachableHealth cfgCooldown urls (initHealth urls)
  | down (st : HealthState) (url : String) (now : Int) :
      ReachableHealth cfgCooldown urls st →
      ReachableHealth cfgCooldown urls (markServerDown cfgCooldown st url now)
  | healthy (st : HealthState) (url : String) :
      ReachableHealth cfgCooldown urls st →
      ReachableHealth cfgCooldown urls (markServerHealthy st url)
  | recover (st : HealthState) (url : String) :
      ReachableHealth cfgCooldown urls st →
      ReachableHealth cfgCooldown urls (recoverServer st url)

/-- health/checker.go 24-41: one tick of PassiveHealthCheck.  It takes a
snapshot of the status map, then for every configured server whose
snapshot status is false and whose config-struct DownUntil field lies in
the past calls RecoverServer.  Note it reads the DownUntil field of the
shared config servers, not the selector's serverDownUntil map. -/
def passiveHealthCheckTick (cfgServers : List UpstreamServer) (st : HealthState)
    (now : Int) : HealthState :=
  let serverStatus := st.status
  cfgServers.foldl
    (fun acc s =>
      if serverStatus s.url = false ∧ s.downUntil < now then recoverServer acc s.url
      else acc)
    st

/-- Outcome of forwardRequest relevant to health/relay claims: either the
request is failed (upstream body withheld, a generic 502-class reply is
produced by the caller) or the upstream status and body are relayed. -/
inductive Disposition where
  | failure
  | relay (status : Nat)
  deriving Repr, DecidableEq

/-- proxy forwardRequest (src/unnamed/part_001, lines 281-317 and the
relay tail): statuses ≥ 500 or = 429 mark the server down and withhold
the body; every other status marks the server healthy and relays the
upstream status and body to the client. -/
def forwardRequestStep (cfgCooldown : Int) (st : HealthState) (url : String)
    (now : Int) (status : Nat) : HealthState × Disposition :=
  if 500 ≤ status ∨ status = 429 then
    (markServerDown cfgCooldown st url now, Disposition.failure)
  else
    (markServerHealthy st url, Disposition.relay status)

/-! ## C5: cooldown formula of MarkServerDown -/

/-- C5, counterexample: with a configured base cooldown of 700 seconds
and the first failure (failureCount 1), MarkServerDown applies a 700 s
cooldown, not min(700 s * 1, 600 s) = 600 s: the 10-minute cap is not
applied at failureCount = 1, contradicting the claim. -/
theorem c5_counterexample :
    (markServerDown 700 (initHealth ["a"]) "a" 0).failCount "a" = 1 ∧
    (markServerDown 700 (initHealth ["a"]) "a" 0).downUntil "a" = 700 * nsPerSecond ∧
    (markServerDown 700 (initHealth ["a"]) "a" 0).downUntil "a" ≠
      min (700 * nsPerSecond * 1) (10 * nsPerMinute) := by
  decide

/-- C5, amended: MarkServerDown increments the failure count and applies
cooldown = min(baseCooldown * failureCount, 10 minutes) whenever the
post-increment failureCount is at least 2, but applies the uncapped base
cooldown when failureCount = 1. -/
theorem c5_amended (cfgCooldown : Int) (st : HealthState) (url : String) (now : Int) :
    (markServerDown cfgCooldown st url now).failCount url = st.failCount url + 1 ∧
    (markServerDown cfgCooldown st url now).downUntil url =
      now + cooldownDuration cfgCooldown (st.failCount url + 1) ∧
    (2 ≤ st.failCount url + 1 →
      cooldownDuration cfgCooldown (st.failCount url + 1) =
        min (cfgCooldown * nsPerSecond * (st.failCount url + 1)) (10 * nsPerMinute)) ∧
    (st.failCount url + 1 = 1 →
      cooldownDuration cfgCooldown (st.failCount url + 1) = cfgCooldown * nsPerSecond) := by
  refine ⟨by simp [markServerDown], by simp [markServerDown], ?_, ?_⟩
  · intro h
    simp only [cooldownDuration, min_def]
    split_ifs <;> omega
  · intro h
    simp only [cooldownDuration]
    split_ifs <;> omega

/-- C5 amended, witness at cfgCooldown 60, failureCount reaching 2. -/
theorem c5_amended_witness :
    cooldownDuration 60 ((markServerDown 60 (initHealth ["a"]) "a" 0).failCount "a" + 1) =
      min (60 * nsPerSecond * ((markServerDown 60 (initHealth ["a"]) "a" 0).failCount "a" + 1))
        (10 * nsPerMinute) :=
  (c5_amended 60 (markServerDown 60 (initHealth ["a"]) "a" 0) "a" 7).2.2.1 (by decide)

/-! ## C10: status flag true forces zero cooldown, in every reachable state -/

/-- C10: in every state reachable by MarkServerDown / MarkServerHealthy /
RecoverServer from the constructor state, a URL whose status flag is
true has a zero serverDownUntil entry; hence for any positive now the
availability check equals the status flag alone. -/
theorem c10_invariant (cfgCooldown : Int) (urls : List String) (st : HealthState)
    (h : ReachableHealth cfgCooldown urls st) :
    (∀ url, st.status url = true → st.downUntil url = 0) ∧
    (∀ url now, 0 < now → isServerAvailable st url now = st.status url) := by
  have key : ∀ url, st.status url = true → st.downUntil url = 0 := by
    induction h with
    | init => intro url _; rfl
    | down st' url' now' _ ih =>
        intro u hu
        by_cases hc : u = url'
        · simp [markServerDown, hc] at hu
        · simp only [markServerDown] at hu ⊢
          rw [if_neg hc] at hu ⊢
          exact ih u hu
    | healthy st' url' _ ih =>
        intro u hu
        rw [markServerHealthy_downUntil]
        by_cases hc : u = url'
        · by_cases hs : st'.status url' = false
          · simp [hs, hc]
          · have hstat : st'.status u = true := by
              rw [hc]
              revert hs
              cases st'.status url' <;> simp
            have hz := ih u hstat
            rw [hc] at hz
            simp [hs, hc, hz]
        · have hu' : st'.status u = true := by
            rw [markServerHealthy_status] at hu
            simpa [hc] using hu
          simp [hc, ih u hu']
    | recover st' url' _ ih =>
        intro u hu
        by_cases hc : u = url'
        · simp [recoverServer, hc]
        · simp only [recoverServer] at hu ⊢
          rw [if_neg hc] at hu ⊢
          exact ih u hu
  refine ⟨key, ?_⟩
  intro url now hnow
  unfold isServerAvailable
  cases hs : st.status url with
  | false => simp
  | true => simp [key url hs, hnow]

/-- C10, witness: the invariant applied to the concrete reachable state
obtained by marking a server down and then healthy. -/
theorem c10_invariant_witness :
    (markServerHealthy (markServerDown 60 (initHealth ["a"]) "a" 5) "a").downUntil "a" = 0 ∧
    isServerAvailable (markServerHealthy (markServerDown 60 (initHealth ["a"]) "a" 5) "a") "a" 7 =
      (markServerHealthy (markServerDown 60 (initHealth ["a"]) "a" 5) "a").status "a" := by
  have h := c10_invariant 60 ["a"]
    (markServerHealthy (markServerDown 60 (initHealth ["a"]) "a" 5) "a")
    (ReachableHealth.healthy _ "a" (ReachableHealth.down _ "a" 5 ReachableHealth.init))
  exact ⟨h.1 "a" (by decide), h.2 "a" 7 (by decide)⟩

/-! ## C4: the passive sweeper ignores the real cooldown -/

/-- C4: the sweeper recovers a server whose cooldown has not expired.
With config cooldown 60 s, MarkServerDown at time 100 sets the
serverDownUntil map entry to 100 + 60 s; a sweeper tick at time 200
(far inside the cooldown) nevertheless recovers the server, because
PassiveHealthCheck tests the config-struct DownUntil field (still zero,
never written by MarkServerDown) instead of the serverDownUntil map. -/
theorem c4_code_bug :
    (markServerDown 60 (initHealth ["a"]) "a" 100).status "a" = false ∧
    (markServerDown 60 (initHealth ["a"]) "a" 100).downUntil "a" = 100 + 60 * nsPerSecond ∧
    (200 : Int) < (markServerDown 60 (initHealth ["a"]) "a" 100).downUntil "a" ∧
    (passiveHealthCheckTick
        [{ url := "a", weight := 1, priority := 0, token := "", downUntil := 0 }]
        (markServerDown 60 (initHealth ["a"]) "a" 100) 200).status "a" = true := by
  decide

/-! ## C2: 4xx (except 429) relays but still touches health -/

/-- C2, counterexample: a 404 response is relayed, but the pipeline calls
MarkServerHealthy, resetting the selected server's failureCount from 1
to 0 — the health state is not left exactly as it was. -/
theorem c2_counterexample :
    (forwardRequestStep 60 (markServerDown 60 (initHealth ["a"]) "a" 100) "a" 200 404).2 =
      Disposition.relay 404 ∧
    (markServerDown 60 (initHealth ["a"]) "a" 100).failCount "a" = 1 ∧
    (forwardRequestStep 60 (markServerDown 60 (initHealth ["a"]) "a" 100) "a" 200
        404).1.failCount "a" = 0 := by
  decide

/-- C2, amended: for every upstream status in 400-499 other than 429 the
pipeline relays the upstream status and body to the client, and instead
of leaving health untouched it marks the selected server healthy
(resetting failureCount to 0 and, if the server was flagged down,
restoring availability and clearing its cooldown). -/
theorem c2_amended (cfgCooldown : Int) (st : HealthState) (url : String) (now : Int)
    (status : Nat) (h1 : 400 ≤ status) (h2 : status ≤ 499) (h3 : status ≠ 429) :
    forwardRequestStep cfgCooldown st url now status =
      (markServerHealthy st url, Disposition.relay status) := by
  have hcond : ¬(500 ≤ status ∨ status = 429) := by omega
  simp [forwardRequestStep, hcond]

/-- C2 amended, witness at status 404. -/
theorem c2_amended_witness :
    forwardRequestStep 60 (initHealth ["a"]) "a" 5 404 =
      (markServerHealthy (initHealth ["a"]) "a", Disposition.relay 404) :=
  c2_amended 60 (initHealth ["a"]) "a" 5 404 (by decide) (by decide) (by decide)

/-! ## Failover selector: SelectServer and the emergency fallback -/

/-- FallbackSelector runtime state relevant to selection (fallback.go
14-21): the status map, the serverDownUntil map written by
MarkServerDown, and the priority-ordered server list.  SelectServer and
getEmergencyFallbackServer read the DownUntil struct field of the
ordered servers (fallback.go 73 and 98), not the serverDownUntil map. -/
structure FallbackState where
  serverStatus : String → Bool
  serverDownUntil : String → Int
  orderedServers : List UpstreamServer

/-- First loop of SelectServer (fallback.go 71-77): the first server in
priority order whose status flag is set and whose DownUntil field lies
in the past. -/
def selectByPriority (status : String → Bool) (now : Int) :
    List UpstreamServer → Option UpstreamServer
  | [] => none
  | s :: rest =>
    if status s.url = true ∧ s.downUntil < now then some s
    else selectByPriority status now rest

/-- Loop of getEmergencyFallbackServer (fallback.go 96-109), carrying the
running best server and shortest remaining cooldown. -/
def emergencyLoop (now : Int) :
    List UpstreamServer → Option UpstreamServer → Int → Option UpstreamServer
  | [], best, _ => best
  | s :: rest, best, shortest =>
    if s.downUntil < now then some s
    else if s.downUntil - now < shortest then
      emergencyLoop now rest (some s) (s.downUntil - now)
    else emergencyLoop now rest best shortest

/-- getEmergencyFallbackServer (fallback.go 91-112): bestServer starts at
nil and shortestCooldown starts at 24 hours. -/
def getEmergencyFallbackServer (fs : FallbackState) (now : Int) : Option UpstreamServer :=
  emergencyLoop now fs.orderedServers none (24 * nsPerHour)

/-- SelectServer (fallback.go 64-88); none models the
"no available servers" error. -/
def selectServer (fs : FallbackState) (now : Int) : Option UpstreamServer :=
  match selectByPriority fs.serverStatus now fs.orderedServers with
  | some s => some s
  | none => getEmergencyFallbackServer fs now

theorem selectByPriority_none (status : String → Bool) (now : Int)
    (l : List UpstreamServer) (h2 : ∀ s ∈ l, ¬ s.downUntil < now) :
    selectByPriority status now l = none := by
  induction l with
  | nil => rfl
  | cons s rest ih =>
      have hs : ¬ s.downUntil < now := h2 s (List.mem_cons_self s rest)
      have hcond : ¬ (status s.url = true ∧ s.downUntil < now) := fun h => hs h.2
      simpa [selectByPriority, hcond] using
        ih fun t ht => h2 t (List.mem_cons_of_mem s ht)

theorem emergencyLoop_spec (now : Int) (l : List UpstreamServer)
    (h2 : ∀ s ∈ l, ¬ s.downUntil < now) :
    ∀ (b : Option UpstreamServer) (sh : Int),
      (∀ r, b = some r → r.downUntil - now = sh) →
      ((emergencyLoop now l b sh = none ↔
          b = none ∧ ∀ s ∈ l, sh ≤ s.downUntil - now) ∧
       (∀ r, emergencyLoop now l b sh = some r →
          (r ∈ l ∨ b = some r) ∧ r.downUntil - now ≤ sh ∧
          ∀ s ∈ l, r.downUntil - now ≤ s.downUntil - now)) := by
  induction l with
  | nil =>
      intro b sh hb
      constructor
      · cases b <;> simp [emergencyLoop]
      · intro r hr
        cases b with
        | none => simp [emergencyLoop] at hr
        | some x =>
            simp only [emergencyLoop, Option.some.injEq] at hr
            subst hr
            exact ⟨Or.inr rfl, le_of_eq (hb x rfl), by simp⟩
  | cons s rest ih =>
      intro b sh hb
      have hs : ¬ s.downUntil < now := h2 s (List.mem_cons_self s rest)
      have h2' : ∀ t ∈ rest, ¬ t.downUntil < now :=
        fun t ht => h2 t (List.mem_cons_of_mem s ht)
      by_cases himp : s.downUntil - now < sh
      · have hrec := (ih h2') (some s) (s.downUntil - now)
          (by intro r hr; cases hr; rfl)
        constructor
        · rw [show emergencyLoop now (s :: rest) b sh =
              emergencyLoop now rest (some s) (s.downUntil - now) by
            simp [emergencyLoop, hs, himp]]
          rw [hrec.1]
          simp only [List.mem_cons]
          constructor
          · intro h
            exact absurd h.1 (by simp)
          · intro h
            have := h.2 s (Or.inl rfl)
            omega
        · intro r hr
          rw [show emergencyLoop now (s :: rest) b sh =
              emergencyLoop now rest (some s) (s.downUntil - now) by
            simp [emergencyLoop, hs, himp]] at hr
          obtain ⟨hmem, hle, hall⟩ := hrec.2 r hr
          have hrs : r.downUntil - now ≤ s.downUntil - now := by
            rcases hmem with h | h
            · exact hle
            · cases h; exact le_of_eq rfl
          refine ⟨?_, by omega, ?_⟩
          · rcases hmem with h | h
            · exact Or.inl (List.mem_cons_of_mem s h)
            · cases h; exact Or.inl (List.mem_cons_self s rest)
          · intro t ht
            rcases List.mem_cons.mp ht with h | h
            · subst h; exact hrs
            · exact hall t h
      · have hrec := (ih h2') b sh hb
        have hstep : emergencyLoop now (s :: rest) b sh = emergencyLoop now rest b sh := by
          simp [emergencyLoop, hs, himp]
        constructor
        · rw [hstep, hrec.1]
          simp only [List.mem_cons]
          constructor
          · intro h
            refine ⟨h.1, ?_⟩
            intro t ht
            rcases ht with h' | h'
            · subst h'; omega
            · exact h.2 t h'
          · intro h
            exact ⟨h.1, fun t ht => h.2 t (Or.inr ht)⟩
        · intro r hr
          rw [hstep] at hr
          obtain ⟨hmem, hle, hall⟩ := hrec.2 r hr
          refine ⟨?_, hle, ?_⟩
          · rcases hmem with h | h
            · exact Or.inl (List.mem_cons_of_mem s h)
            · exact Or.inr h
          · intro t ht
            rcases List.mem_cons.mp ht with h | h
            · subst h; omega
            · exact hall t h

/-- C3 counterexample state: a single server flagged available whose
DownUntil field lies 25 hours in the future. -/
def c3CounterState : FallbackState where
  serverStatus := fun _ => true
  serverDownUntil := fun _ => 25 * nsPerHour
  orderedServers := [{ url := "a", weight := 1, priority := 1, token := "",
                       downUntil := 25 * nsPerHour }]

/-- C3, counterexample: at time 1000 no server of c3CounterState is
selectable and no server's cooldown has lapsed, the ordered list is
non-empty, yet SelectServer returns the "no available servers" error
instead of the server with the smallest remaining cooldown: the
emergency loop's shortest-cooldown search starts at 24 hours and this
server's remaining cooldown is larger. -/
theorem c3_counterexample :
    (∀ s ∈ c3CounterState.orderedServers,
        ¬ (c3CounterState.serverStatus s.url = true ∧ s.downUntil < 1000)) ∧
    (∀ s ∈ c3CounterState.orderedServers, ¬ s.downUntil < 1000) ∧
    c3CounterState.orderedServers ≠ [] ∧
    selectServer c3CounterState 1000 = none := by
  decide

/-- C3, amended: when no server's cooldown (DownUntil field) has lapsed
(which also means no server is selectable), SelectServer returns a
server of the ordered list whose remaining cooldown is minimal, provided
some server's remaining cooldown is below the emergency loop's initial
24-hour bound; it returns the "no available servers" error exactly when
the list is empty or every remaining cooldown is at least 24 hours. -/
theorem c3_amended (fs : FallbackState) (now : Int)
    (h2 : ∀ s ∈ fs.orderedServers, ¬ s.downUntil < now) :
    (selectServer fs now = none ↔
      ∀ s ∈ fs.orderedServers, 24 * nsPerHour ≤ s.downUntil - now) ∧
    (∀ r, selectServer fs now = some r →
      r ∈ fs.orderedServers ∧
      ∀ s ∈ fs.orderedServers, r.downUntil - now ≤ s.downUntil - now) := by
  have hfirst := selectByPriority_none fs.serverStatus now fs.orderedServers h2
  have hsel : selectServer fs now = getEmergencyFallbackServer fs now := by
    unfold selectServer
    rw [hfirst]
  have hspec := emergencyLoop_spec now fs.orderedServers h2 none (24 * nsPerHour)
    (by intro r hr; cases hr)
  constructor
  · rw [hsel]
    unfold getEmergencyFallbackServer
    rw [hspec.1]
    simp
  · intro r hr
    rw [hsel] at hr
    obtain ⟨hmem, _, hall⟩ := hspec.2 r hr
    refine ⟨?_, hall⟩
    rcases hmem with h | h
    · exact h
    · cases h

/-- C3 amended witness state: one server down with 60 ns of cooldown
remaining at time 40. -/
def c3WitnessState : FallbackState where
  serverStatus := fun _ => false
  serverDownUntil := fun _ => 100
  orderedServers := [{ url := "a", weight := 1, priority := 1, token := "", downUntil := 100 }]

/-- C3 amended, witness: the amended theorem instantiated at
c3WitnessState and time 40. -/
theorem c3_amended_witness :
    (selectServer c3WitnessState 40 = none ↔
      ∀ s ∈ c3WitnessState.orderedServers, 24 * nsPerHour ≤ s.downUntil - 40) ∧
    (∀ r, selectServer c3WitnessState 40 = some r →
      r ∈ c3WitnessState.orderedServers ∧
      ∀ s ∈ c3WitnessState.orderedServers, r.downUntil - 40 ≤ s.downUntil - 40) :=
  c3_amended c3WitnessState 40 (by decide)

/-! ## Balancing selector: round robin -/

def defaultServer : UpstreamServer :=
  { url := "", weight := 0, priority := 0, token := "", downUntil := 0 }

/-- getRoundRobinServer (load_balancer.go 80-91): increment the cursor,
then index the selectable snapshot with cursor mod length; nil on an
empty snapshot.  Returns the new cursor together with the pick. -/
def getRoundRobinServer (servers : List UpstreamServer) (counter : ℕ) :
    ℕ × Option UpstreamServer :=
  if servers.length = 0 then (counter, none)
  else
    let counter' := counter + 1
    (counter', some (servers.getD (counter' % servers.length) defaultServer))

/-- n successive getRoundRobinServer calls over a fixed selectable set:
the list of picks and the final cursor. -/
def rrCalls (servers : List UpstreamServer) (counter : ℕ) :
    ℕ → List (Option UpstreamServer) × ℕ
  | 0 => ([], counter)
  | n + 1 =>
    let prev := rrCalls servers counter n
    let step := getRoundRobinServer servers prev.2
    (prev.1 ++ [step.2], step.1)

theorem rrCalls_eq (servers : List UpstreamServer) (h : servers.length ≠ 0)
    (c : ℕ) : ∀ n, rrCalls servers c n =
      ((List.range n).map fun i =>
        some (servers.getD ((c + 1 + i) % servers.length) defaultServer), c + n) := by
  intro n
  induction n with
  | zero => simp [rrCalls]
  | succ n ih =>
      have hidx : c + n + 1 = c + 1 + n := by omega
      simp only [rrCalls, ih]
      simp only [getRoundRobinServer, if_neg h]
      rw [List.range_succ, List.map_append]
      refine Prod.ext ?_ (by omega)
      simp [hidx]

theorem rangeShift_perm (N : ℕ) :
    ∀ k, (((List.range N).map fun i => (k + i) % N)).Perm (List.range N) := by
  intro k
  induction k with
  | zero =>
      have hcongr : ((List.range N).map fun i => (0 + i) % N)
          = (List.range N).map fun i => i := by
        apply List.map_congr_left
        intro i hi
        rw [Nat.zero_add, Nat.mod_eq_of_lt (List.mem_range.mp hi)]
      rw [hcongr, List.map_id']
  | succ k ih =>
      rcases Nat.eq_zero_or_pos N with hN | hN
      · subst hN; simp
      obtain ⟨m, rfl⟩ : ∃ m, N = m + 1 := ⟨N - 1, by omega⟩
      have key1 : ((List.range (m + 1)).map fun i => (k + 1 + i) % (m + 1))
          = ((List.range m).map fun i => (k + 1 + i) % (m + 1)) ++ [(k + 1 + m) % (m + 1)] := by
        conv_lhs => rw [List.range_succ]
        rw [List.map_append]
        rfl
      have key2 : ((List.range (m + 1)).map fun i => (k + i) % (m + 1))
          = (k % (m + 1)) :: ((List.range m).map fun i => (k + 1 + i) % (m + 1)) := by
        conv_lhs => rw [List.range_succ_eq_map]
        rw [List.map_cons, List.map_map]
        congr 1
        apply List.map_congr_left
        intro i _
        have hadd : k + Nat.succ i = k + 1 + i := by omega
        simp [Function.comp, hadd]
      have key3 : (k + 1 + m) % (m + 1) = k % (m + 1) := by
        have hadd : k + 1 + m = k + (m + 1) := by omega
        rw [hadd, Nat.add_mod_right]
      have step1 : ((List.range (m + 1)).map fun i => (k + 1 + i) % (m + 1))
          = ((List.range m).map fun i => (k + 1 + i) % (m + 1)) ++ [k % (m + 1)] := by
        rw [key1, key3]
      rw [step1]
      refine (List.perm_append_singleton _ _).trans ?_
      rw [← key2]
      exact ih

theorem map_getD_range {α : Type} (l : List α) (d : α) :
    ((List.range l.length).map fun i => l.getD i d) = l := by
  induction l with
  | nil => rfl
  | cons a t ih =>
      rw [List.length_cons, List.range_succ_eq_map, List.map_cons, List.map_map]
      have hmap : List.map ((fun i => (a :: t).getD i d) ∘ Nat.succ) (List.range t.length)
          = (List.range t.length).map fun i => t.getD i d :=
        List.map_congr_left fun i _ => rfl
      rw [hmap, ih]
      rfl

/-- C9: with a fixed selectable set of N servers, N consecutive round
robin picks starting from cursor value c are exactly the servers at
positions (c+1+i) mod N in list order (a cyclic walk starting at the
position determined by the cursor), and they form a permutation of the
selectable set: each server is picked exactly once. -/
theorem c9_round_robin (servers : List UpstreamServer) (c : ℕ) (h : servers ≠ []) :
    (rrCalls servers c servers.length).1 =
      ((List.range servers.length).map fun i =>
        some (servers.getD ((c + 1 + i) % servers.length) defaultServer)) ∧
    ((rrCalls servers c servers.length).1).Perm (servers.map some) := by
  have hlen : servers.length ≠ 0 := fun h0 => h (List.length_eq_zero.mp h0)
  have heq := rrCalls_eq servers hlen c servers.length
  constructor
  · rw [heq]
  · rw [heq]
    have hcomp : ((List.range servers.length).map fun i =>
        some (servers.getD ((c + 1 + i) % servers.length) defaultServer))
        = (((List.range servers.length).map fun i => (c + 1 + i) % servers.length).map
            fun j => some (servers.getD j defaultServer)) := by
      rw [List.map_map]
      rfl
    show (((List.range servers.length).map fun i =>
        some (servers.getD ((c + 1 + i) % servers.length) defaultServer))).Perm
        (servers.map some)
    rw [hcomp]
    refine ((rangeShift_perm servers.length (c + 1)).map _).trans ?_
    have hgetD : ((List.range servers.length).map fun j =>
        some (servers.getD j defaultServer)) = servers.map some := by
      rw [show ((List.range servers.length).map fun j =>
          some (servers.getD j defaultServer))
          = (((List.range servers.length).map fun j => servers.getD j defaultServer).map
              some) by rw [List.map_map]; rfl]
      rw [map_getD_range]
    rw [hgetD]

def c9Servers : List UpstreamServer :=
  [{ url := "a", weight := 1, priority := 0, token := "", downUntil := 0 },
   { url := "b", weight := 1, priority := 0, token := "", downUntil := 0 },
   { url := "c", weight := 1, priority := 0, token := "", downUntil := 0 }]

/-- C9, witness: the round robin theorem applied to three equal-weight
servers with cursor 4. -/
theorem c9_round_robin_witness :
    ((rrCalls c9Servers 4 c9Servers.length).1).Perm (c9Servers.map some) :=
  (c9_round_robin c9Servers 4 (by decide)).2

/-! ## Balancing selector: smooth weighted round robin -/

/-- Go map read serverWeights[url] (zero when absent). -/
def wLookup (m : List (String × Int)) (k : String) : Int :=
  ((m.find? fun p => p.1 == k).map Prod.snd).getD 0

/-- Go map write serverWeights[url] = v. -/
def wSet : List (String × Int) → String → Int → List (String × Int)
  | [], k, v => [(k, v)]
  | p :: rest, k, v => if p.1 = k then (k, v) :: rest else p :: wSet rest k v

/-- The weight normalization `if weight <= 0 { weight = 1 }` used in
NewLoadBalancer and getWeightedServer. -/
def normWeight (w : Int) : Int := if w ≤ 0 then 1 else w

/-- getWeightedServer (load_balancer.go 94-143): empty and singleton
shortcuts; otherwise add each server's normalized static weight to its
currentWeight, track the first strict maximum, then subtract the total
weight from the winner's currentWeight. -/
def getWeightedServer (servers : List UpstreamServer) (w : List (String × Int)) :
    Option UpstreamServer × List (String × Int) :=
  match servers with
  | [] => (none, w)
  | [s] => (some s, w)
  | _ =>
    let totalWeight := servers.foldl (fun t s => t + normWeight s.weight) 0
    let loop := servers.foldl
      (fun (acc : List (String × Int) × Option UpstreamServer × Int) s =>
        let ow := normWeight s.weight
        let wm := wSet acc.1 s.url (wLookup acc.1 s.url + ow)
        let cw := wLookup wm s.url
        if acc.2.2 < cw then (wm, some s, cw) else (wm, acc.2.1, acc.2.2))
      (w, none, -1)
    match loop.2.1 with
    | some s => (some s, wSet loop.1 s.url (wLookup loop.1 s.url - totalWeight))
    | none => (none, loop.1)

/-- NewLoadBalancer (load_balancer.go 36-46): initial currentWeight map
with each configured URL at its normalized static weight. -/
def initServerWeights (servers : List UpstreamServer) : List (String × Int) :=
  servers.foldl (fun m s => wSet m s.url (normWeight s.weight)) []

def c6A : UpstreamServer := { url := "a", weight := 5, priority := 0, token := "", downUntil := 0 }

def c6B : UpstreamServer := { url := "b", weight := 3, priority := 0, token := "", downUntil := 0 }

def c6C : UpstreamServer := { url := "c", weight := 1, priority := 0, token := "", downUntil := 0 }

def c6Servers : List UpstreamServer := [c6A, c6B, c6C]

/-- currentWeight map after n weighted selections over the fixed
selectable set {a:5, b:3, c:1}. -/
def c6Weights : ℕ → List (String × Int)
  | 0 => initServerWeights c6Servers
  | n + 1 => (getWeightedServer c6Servers (c6Weights n)).2

/-- Pick of the (n+1)-st weighted selection. -/
def c6Pick (n : ℕ) : Option UpstreamServer := (getWeightedServer c6Servers (c6Weights n)).1

theorem c6Weights_period : ∀ k, c6Weights (k + 9) = c6Weights k := by
  intro k
  induction k with
  | zero => decide
  | succ k ih =>
      calc c6Weights (k + 1 + 9) = (getWeightedServer c6Servers (c6Weights (k + 9))).2 := rfl
        _ = (getWeightedServer c6Servers (c6Weights k)).2 := by rw [ih]
        _ = c6Weights (k + 1) := rfl

theorem c6Pick_period (k : ℕ) : c6Pick (k + 9) = c6Pick k := by
  unfold c6Pick
  rw [c6Weights_period]

/-- The window of 9 consecutive weighted picks starting after k prior
selections. -/
def c6Window (k : ℕ) : List (Option UpstreamServer) :=
  (List.range 9).map fun i => c6Pick (k + i)

theorem c6Window_eq (k : ℕ) : c6Window k =
    [c6Pick k, c6Pick (k + 1), c6Pick (k + 2), c6Pick (k + 3), c6Pick (k + 4),
     c6Pick (k + 5), c6Pick (k + 6), c6Pick (k + 7), c6Pick (k + 8)] := rfl

theorem c6Window_perm (k : ℕ) : (c6Window (k + 1)).Perm (c6Window k) := by
  have hw : c6Window (k + 1) =
      [c6Pick (k + 1), c6Pick (k + 2), c6Pick (k + 3), c6Pick (k + 4), c6Pick (k + 5),
       c6Pick (k + 6), c6Pick (k + 7), c6Pick (k + 8), c6Pick k] := by
    rw [← c6Pick_period k]
    rfl
  rw [hw, c6Window_eq]
  exact List.perm_append_singleton (c6Pick k)
    [c6Pick (k + 1), c6Pick (k + 2), c6Pick (k + 3), c6Pick (k + 4), c6Pick (k + 5),
     c6Pick (k + 6), c6Pick (k + 7), c6Pick (k + 8)]

/-- Number of times a given pick occurs in a pick list. -/
def countPick (l : List (Option UpstreamServer)) (s : Option UpstreamServer) : ℕ :=
  (l.filter fun x => x = s).length

theorem countPick_perm {l1 l2 : List (Option UpstreamServer)} (h : l1.Perm l2)
    (s : Option UpstreamServer) : countPick l1 s = countPick l2 s := by
  unfold countPick
  rw [← List.countP_eq_length_filter, ← List.countP_eq_length_filter, h.countP_eq]

/-- C6: with the weighted_round_robin algorithm over the fixed
selectable set {a: weight 5, b: weight 3, c: weight 1}, every window of
9 = totalWeight consecutive selections picks a exactly 5 times, b
exactly 3 times and c exactly once. -/
theorem c6_smooth_weighted_distribution : ∀ k,
    countPick (c6Window k) (some c6A) = 5 ∧
    countPick (c6Window k) (some c6B) = 3 ∧
    countPick (c6Window k) (some c6C) = 1 := by
  intro k
  induction k with
  | zero => decide
  | succ k ih =>
      have hperm := c6Window_perm k
      rw [countPick_perm hperm, countPick_perm hperm, countPick_perm hperm]
      exact ih

/-! ## Forwarding pipeline: hop-by-hop header stripping

String helpers.  Header names and Connection tokens are ASCII, so Go's
strings.ToLower / strings.TrimSpace / strings.Split(s, ",") are
modelled by ASCII lowercasing, whitespace trimming and splitting on the
comma character over the underlying character list. -/

def lowerChar (c : Char) : Char :=
  if 'A' ≤ c ∧ c ≤ 'Z' then Char.ofNat (c.toNat + 32) else c

def asciiToLower (s : String) : String := ⟨s.data.map lowerChar⟩

def isSpaceChar (c : Char) : Bool := c = ' ' ∨ c = '\t' ∨ c = '\n' ∨ c = '\r'

def trimChars (l : List Char) : List Char :=
  ((l.dropWhile isSpaceChar).reverse.dropWhile isSpaceChar).reverse

def strTrim (s : String) : String := ⟨trimChars s.data⟩

def splitOnChar (sep : Char) : List Char → List (List Char)
  | [] => [[]]
  | c :: rest =>
    match splitOnChar sep rest with
    | [] => [[c]]
    | h :: t => if c = sep then [] :: h :: t else (c :: h) :: t

def strSplitComma (s : String) : List String :=
  (splitOnChar ',' s.data).map fun l => ⟨l⟩

/-- getHopByHopHeaders (part_001 lines 21-45): the fixed RFC 2616 set,
plus the comma-separated tokens of the Connection header value (trimmed,
lowercased, dropping the empty string, close and keep-alive).  The Go
map of lowercase names is modelled as the list of names it maps to
true. -/
def fixedHopByHopHeaders : List String :=
  ["connection", "keep-alive", "proxy-authenticate", "proxy-authorization",
   "te", "trailers", "transfer-encoding", "upgrade"]

def connectionTokens (connectionHeader : String) : List String :=
  if connectionHeader = "" then []
  else (strSplitComma connectionHeader |>.map fun t => asciiToLower (strTrim t)).filter
    fun t => t ≠ "" ∧ t ≠ "close" ∧ t ≠ "keep-alive"

def getHopByHopHeaders (connectionHeader : String) : List String :=
  fixedHopByHopHeaders ++ connectionTokens connectionHeader

/-- http.Header.Get: the first value stored under the (canonicalized,
here: case-insensitive) header name. -/
def headerGet (h : List (String × List String)) (name : String) : String :=
  match h.find? fun p => asciiToLower p.1 = asciiToLower name with
  | some (_, v :: _) => v
  | _ => ""

/-- Header-copy loop of forwardRequest (part_001 lines 205-214): the
header literally named Authorization (case-insensitively) is replaced by
the selected server's bearer token; headers whose lowercase name is in
the hop-by-hop set are dropped; everything else is copied. -/
def copyRequestHeaders (token : String) (hop : List String) :
    List (String × List String) → List (String × List String)
  | [] => []
  | kv :: rest =>
    if asciiToLower kv.1 = "authorization" then
      (kv.1, ["Bearer " ++ token]) :: copyRequestHeaders token hop rest
    else if asciiToLower kv.1 ∈ hop then copyRequestHeaders token hop rest
    else kv :: copyRequestHeaders token hop rest

/-- Outbound header construction of forwardRequest (part_001 lines
201-214): the hop-by-hop set is computed from the inbound Connection
header and extended with host. -/
def buildOutboundHeaders (token : String) (inbound : List (String × List String)) :
    List (String × List String) :=
  copyRequestHeaders token
    (getHopByHopHeaders (headerGet inbound "Connection") ++ ["host"]) inbound

theorem copyRequestHeaders_mem (token : String) (hop : List String)
    (l : List (String × List String)) :
    ∀ kv ∈ copyRequestHeaders token hop l,
      (asciiToLower kv.1 ∈ hop → asciiToLower kv.1 = "authorization") ∧
      (asciiToLower kv.1 = "authorization" → kv.2 = ["Bearer " ++ token]) := by
  induction l with
  | nil => intro kv h; simp [copyRequestHeaders] at h
  | cons p rest ih =>
      intro kv hkv
      by_cases ha : asciiToLower p.1 = "authorization"
      · rw [copyRequestHeaders, if_pos ha] at hkv
        rcases List.mem_cons.mp hkv with h | h
        · subst h
          exact ⟨fun _ => ha, fun _ => rfl⟩
        · exact ih kv h
      · by_cases hh : asciiToLower p.1 ∈ hop
        · rw [copyRequestHeaders, if_neg ha, if_pos hh] at hkv
          exact ih kv hkv
        · rw [copyRequestHeaders, if_neg ha, if_neg hh] at hkv
          rcases List.mem_cons.mp hkv with h | h
          · subst h
            exact ⟨fun hm => absurd hm hh, fun hm => absurd hm ha⟩
          · exact ih kv h

theorem copyRequestHeaders_auth (token : String) (hop : List String)
    (l : List (String × List String)) :
    (∃ kv ∈ l, asciiToLower kv.1 = "authorization") →
    ∃ kv ∈ copyRequestHeaders token hop l,
      asciiToLower kv.1 = "authorization" ∧ kv.2 = ["Bearer " ++ token] := by
  induction l with
  | nil => intro h; simp at h
  | cons p rest ih =>
      intro h
      by_cases ha : asciiToLower p.1 = "authorization"
      · refine ⟨(p.1, ["Bearer " ++ token]), ?_, ha, rfl⟩
        rw [copyRequestHeaders, if_pos ha]
        exact List.mem_cons_self _ _
      · have hrest : ∃ kv ∈ rest, asciiToLower kv.1 = "authorization" := by
          rcases h with ⟨kv, hmem, hkv⟩
          rcases List.mem_cons.mp hmem with h1 | h1
          · subst h1; exact absurd hkv ha
          · exact ⟨kv, h1, hkv⟩
        obtain ⟨kv, hmem, hkv⟩ := ih hrest
        by_cases hh : asciiToLower p.1 ∈ hop
        · refine ⟨kv, ?_, hkv⟩
          rw [copyRequestHeaders, if_neg ha, if_pos hh]
          exact hmem
        · refine ⟨kv, ?_, hkv⟩
          rw [copyRequestHeaders, if_neg ha, if_neg hh]
          exact List.mem_cons_of_mem _ hmem

/-- C7, counterexample: for the inbound request with headers
Connection: authorization and Authorization: secret, the outbound
request still contains a header (the replaced Authorization) whose
lowercase name is listed in the inbound Connection header value — the
claim's requirement that no such header is forwarded fails, because the
Authorization replacement branch runs before the hop-by-hop filter. -/
theorem c7_counterexample :
    ∃ kv ∈ buildOutboundHeaders "tok"
        [("Connection", ["authorization"]), ("Authorization", ["secret"])],
      asciiToLower kv.1 ∈ connectionTokens (headerGet
        [("Connection", ["authorization"]), ("Authorization", ["secret"])] "Connection") := by
  decide

/-- C7, amended: every outbound header avoids the name host, avoids the
hop-by-hop set (fixed RFC 2616 names plus the Connection-listed names
except close and keep-alive) unless it is the replaced authorization
header, and every outbound authorization header carries exactly
"Bearer " + token (never the inbound value); moreover an inbound
Authorization header always yields such a replaced outbound header. -/
theorem c7_amended (token : String) (inbound : List (String × List String)) :
    (∀ kv ∈ buildOutboundHeaders token inbound,
      asciiToLower kv.1 ≠ "host" ∧
      (asciiToLower kv.1 ∈ getHopByHopHeaders (headerGet inbound "Connection") →
        asciiToLower kv.1 = "authorization") ∧
      (asciiToLower kv.1 = "authorization" → kv.2 = ["Bearer " ++ token])) ∧
    ((∃ kv ∈ inbound, asciiToLower kv.1 = "authorization") →
      ∃ kv ∈ buildOutboundHeaders token inbound,
        asciiToLower kv.1 = "authorization" ∧ kv.2 = ["Bearer " ++ token]) := by
  constructor
  · intro kv hkv
    have h := copyRequestHeaders_mem token _ inbound kv hkv
    refine ⟨?_, fun hm => h.1 (List.mem_append_left _ hm), h.2⟩
    intro hhost
    have hmem : asciiToLower kv.1 ∈
        (getHopByHopHeaders (headerGet inbound "Connection") ++ ["host"]) := by
      rw [hhost]
      exact List.mem_append_right _ (by simp)
    have := h.1 hmem
    rw [hhost] at this
    exact absurd this (by decide)
  · exact copyRequestHeaders_auth token _ inbound

def c7WitnessInbound : List (String × List String) :=
  [("Connection", ["close, X-Drop"]), ("X-Drop", ["d"]), ("Authorization", ["secret"]),
   ("X-Keep", ["v"])]

/-- C7 amended, witness: the amended theorem instantiated at a concrete
inbound header set, evaluated at the surviving X-Keep header and at the
replaced Authorization header. -/
theorem c7_amended_witness :
    (asciiToLower (("X-Keep", ["v"]) : String × List String).1 ≠ "host" ∧
      (asciiToLower (("X-Keep", ["v"]) : String × List String).1 ∈
          getHopByHopHeaders (headerGet c7WitnessInbound "Connection") →
        asciiToLower (("X-Keep", ["v"]) : String × List String).1 = "authorization") ∧
      (asciiToLower (("X-Keep", ["v"]) : String × List String).1 = "authorization" →
        (("X-Keep", ["v"]) : String × List String).2 = ["Bearer " ++ "tok"])) ∧
    (∃ kv ∈ buildOutboundHeaders "tok" c7WitnessInbound,
      asciiToLower kv.1 = "authorization" ∧ kv.2 = ["Bearer " ++ "tok"]) := by
  have h := c7_amended "tok" c7WitnessInbound
  exact ⟨h.1 ("X-Keep", ["v"]) (by decide), h.2 (by decide)⟩

/-! ## SSE usage parsing -/

/-- JSON values as decoded by encoding/json into map[string]any.  The
usage token counts are integral, so numbers are modelled as Int. -/
inductive JVal where
  | jnull
  | jbool (b : Bool)
  | jnum (n : Int)
  | jstr (s : String)
  | jarr (xs : List JVal)
  | jobj (fields : List (String × JVal))

/-- Go map read m[k] (type assertions are performed by the callers). -/
def jLookup (m : List (String × JVal)) (k : String) : Option JVal :=
  (m.find? fun p => p.1 == k).map Prod.snd

/-- types.ClaudeUsage. -/
structure ClaudeUsage where
  inputTokens : Int
  outputTokens : Int
  cacheCreationInputTokens : Int
  cacheReadInputTokens : Int
  deriving Repr, DecidableEq

def emptyUsage : ClaudeUsage :=
  { inputTokens := 0, outputTokens := 0, cacheCreationInputTokens := 0,
    cacheReadInputTokens := 0 }

/-- parseUsageFromMap (part_001 lines 133-150): each field is set from
the usage map when present and numeric, otherwise left zero. -/
def parseUsageFromMap (m : List (String × JVal)) : ClaudeUsage :=
  let u0 := emptyUsage
  let u1 := match jLookup m "input_tokens" with
    | some (JVal.jnum n) => { u0 with inputTokens := n }
    | _ => u0
  let u2 := match jLookup m "output_tokens" with
    | some (JVal.jnum n) => { u1 with outputTokens := n }
    | _ => u1
  let u3 := match jLookup m "cache_creation_input_tokens" with
    | some (JVal.jnum n) => { u2 with cacheCreationInputTokens := n }
    | _ => u2
  match jLookup m "cache_read_input_tokens" with
    | some (JVal.jnum n) => { u3 with cacheReadInputTokens := n }
    | _ => u3

/-- The model / usage / success triple accumulated by
parseSSEUsageInfo. -/
structure SSEResult where
  model : String
  usage : ClaudeUsage
  success : Bool
  deriving Repr, DecidableEq

/-- strings.CutPrefix(line, "data: "). -/
def cutDataColon (line : String) : Option String :=
  match line.data with
  | 'd' :: 'a' :: 't' :: 'a' :: ':' :: ' ' :: rest => some ⟨rest⟩
  | _ => none

def containsAt : List Char → List Char → Bool
  | pat, [] => pat.isEmpty
  | pat, c :: rest => pat.isPrefixOf (c :: rest) || containsAt pat rest

/-- strings.Contains. -/
def strContains (s pat : String) : Bool := containsAt pat.data s.data

/-- One iteration of parseSSEUsageInfo's line scan (part_001 lines
87-126).  json.Unmarshal into map[string]any (an external library call)
is abstracted as the decode argument; a non-object payload decodes to
none (Unmarshal errors out and the line is skipped). -/
def processSSELine (decode : String → Option (List (String × JVal)))
    (acc : SSEResult) (line : String) : SSEResult :=
  match cutDataColon line with
  | none => acc
  | some rest =>
    let dataJSON := strTrim rest
    if dataJSON = "" ∨ strContains dataJSON "\"type\": \"ping\"" = true then acc
    else
      match decode dataJSON with
      | none => acc
      | some fields =>
        match jLookup fields "type" with
        | some (JVal.jstr t) =>
          if t = "message_start" then
            match jLookup fields "message" with
            | some (JVal.jobj msg) =>
              let acc1 := match jLookup msg "model" with
                | some (JVal.jstr m) => { acc with model := m }
                | _ => acc
              match jLookup msg "usage" with
              | some (JVal.jobj u) =>
                { acc1 with usage := parseUsageFromMap u, success := true }
              | _ => acc1
            | _ => acc
          else if t = "message_delta" then
            match jLookup fields "usage" with
            | some (JVal.jobj u) =>
              { acc with usage := parseUsageFromMap u, success := true }
            | _ => acc
          else acc
        | _ => acc

/-- parseSSEUsageInfo (part_001 lines 84-130): split the body on
newlines and fold the line scan from the zero-valued accumulator. -/
def parseSSEUsageInfo (decode : String → Option (List (String × JVal)))
    (body : String) : SSEResult :=
  ((splitOnChar '\n' body.data).map fun l => (⟨l⟩ : String)).foldl
    (processSSELine decode) { model := "", usage := emptyUsage, success := false }

def c8StartPayload : String :=
  "\x7b\"type\": \"message_start\", \"message\": \x7b\"model\": \"claude-3\", \"usage\": \x7b\"input_tokens\": 10, \"output_tokens\": 5\x7d\x7d\x7d"

def c8DeltaPayload : String :=
  "\x7b\"type\": \"message_delta\", \"usage\": \x7b\"output_tokens\": 30\x7d\x7d"

def c8StartJson : List (String × JVal) :=
  [("type", JVal.jstr "message_start"),
   ("message", JVal.jobj
     [("model", JVal.jstr "claude-3"),
      ("usage", JVal.jobj [("input_tokens", JVal.jnum 10), ("output_tokens", JVal.jnum 5)])])]

def c8DeltaJson : List (String × JVal) :=
  [("type", JVal.jstr "message_delta"),
   ("usage", JVal.jobj [("output_tokens", JVal.jnum 30)])]

/-- The JSON decodings of the two payloads of the C8 stream. -/
def c8Decode : String → Option (List (String × JVal)) := fun s =>
  if s = c8StartPayload then some c8StartJson
  else if s = c8DeltaPayload then some c8DeltaJson
  else none

def c8Body : String :=
  "data: " ++ c8StartPayload ++ "\n\ndata: " ++ c8DeltaPayload ++ "\n"

/-- C8: a message_delta event carrying a usage object replaces the
accumulated usage wholesale (the new accumulator's usage is
parseUsageFromMap of the delta's usage map, independent of the previous
usage); in particular for the stream message_start {input 10, output 5}
followed by message_delta {output 30}, the final usage is
output_tokens = 30 and input_tokens = 0. -/
theorem c8_sse_delta_replaces :
    (∀ (decode : String → Option (List (String × JVal))) (acc : SSEResult)
        (line rest : String) (fields u : List (String × JVal)),
      cutDataColon line = some rest →
      strTrim rest ≠ "" →
      strContains (strTrim rest) "\"type\": \"ping\"" = false →
      decode (strTrim rest) = some fields →
      jLookup fields "type" = some (JVal.jstr "message_delta") →
      jLookup fields "usage" = some (JVal.jobj u) →
      processSSELine decode acc line =
        { acc with usage := parseUsageFromMap u, success := true }) ∧
    (parseSSEUsageInfo c8Decode c8Body).usage =
      { inputTokens := 0, outputTokens := 30, cacheCreationInputTokens := 0,
        cacheReadInputTokens := 0 } := by
  constructor
  · intro decode acc line rest fields u h1 h2 h3 h4 h5 h6
    have hcond : ¬(strTrim rest = "" ∨ strContains (strTrim rest) "\"type\": \"ping\"" = true) := by
      rintro (h | h)
      · exact h2 h
      · rw [h3] at h
        exact Bool.false_ne_true h
    simp only [processSSELine, h1, h4, h5, h6, if_neg hcond]
    rfl
  · decide

/-- C8, witness: the replacement law applied to the concrete delta line
of the C8 stream, over an accumulator already holding usage {10, 5}. -/
theorem c8_sse_delta_replaces_witness :
    processSSELine c8Decode
      { model := "claude-3",
        usage := { inputTokens := 10, outputTokens := 5, cacheCreationInputTokens := 0,
                   cacheReadInputTokens := 0 },
        success := true }
      ("data: " ++ c8DeltaPayload) =
    { model := "claude-3",
      usage := parseUsageFromMap [("output_tokens", JVal.jnum 30)],
      success := true } :=
  c8_sse_delta_replaces.1 c8Decode
    { model := "claude-3",
      usage := { inputTokens := 10, outputTokens := 5, cacheCreationInputTokens := 0,
                 cacheReadInputTokens := 0 },
      success := true }
    ("data: " ++ c8DeltaPayload) c8DeltaPayload c8DeltaJson
    [("output_tokens", JVal.jnum 30)]
    (by decide) (by decide) (by decide) (by rfl) (by rfl) (by rfl)

/-! ## Failover selector construction: unique priority assignment -/

/-- Total preorder of the final sort in NewFallbackSelector (fallback.go
47-53): ascending priority, ties broken by descending weight (the
complement of the sort.Slice less function). -/
def prioWeightRel (a b : UpstreamServer) : Prop :=
  a.priority < b.priority ∨ (a.priority = b.priority ∧ b.weight ≤ a.weight)

instance : DecidableRel prioWeightRel := fun a b => by
  unfold prioWeightRel
  infer_instance

instance : IsTotal UpstreamServer prioWeightRel := ⟨fun a b => by
  unfold prioWeightRel
  omega⟩

instance : IsTrans UpstreamServer prioWeightRel := ⟨fun a b c => by
  unfold prioWeightRel
  omega⟩

/-- Weight-descending total preorder (complement of the weight-only
sort.Slice less functions in fallback.go 250-252 and 281-287). -/
def weightDescRel (a b : UpstreamServer) : Prop := b.weight ≤ a.weight

instance : DecidableRel weightDescRel := fun a b => by
  unfold weightDescRel
  infer_instance

instance : IsTotal UpstreamServer weightDescRel := ⟨fun a b => by
  unfold weightDescRel
  omega⟩

instance : IsTrans UpstreamServer weightDescRel := ⟨fun a b c => by
  unfold weightDescRel
  omega⟩

/-- Size of the group of servers sharing priority p. -/
def priorityGroupSize (servers : List UpstreamServer) (p : Int) : ℕ :=
  (servers.filter fun t => t.priority = p).length

/-- Position of the server s (at index i of servers) inside its priority
group once the group is sorted by descending weight: the number of group
members of strictly larger weight, or of equal weight and smaller
original index. -/
def conflictRank (servers : List UpstreamServer) (i : ℕ) (s : UpstreamServer) : ℕ :=
  (servers.enum.filter fun jt =>
    jt.2.priority = s.priority ∧
      (s.weight < jt.2.weight ∨ (jt.2.weight = s.weight ∧ jt.1 < i))).length

/-- resolveExplicitPriorityConflicts (fallback.go 239-264): inside every
group sharing an explicit priority p with more than one member, re-sort
the group by descending weight and assign consecutive priorities p, p+1,
...; singleton groups are untouched.  Groups are disjoint, so the Go
map-iteration order is immaterial. -/
def resolveExplicitPriorityConflicts (servers : List UpstreamServer) :
    List UpstreamServer :=
  servers.enum.map fun is =>
    if priorityGroupSize servers is.2.priority ≤ 1 then is.2
    else { is.2 with priority := is.2.priority + conflictRank servers is.1 is.2 }

/-- assignAutoPriorities (fallback.go 267-295): sort the zero-priority
servers by descending weight and assign consecutive priorities starting
right after the largest explicit priority. -/
def assignAutoPriorities (autos explicits : List UpstreamServer) :
    List UpstreamServer :=
  if autos = [] then autos
  else
    let maxUsed := explicits.foldl (fun m s => max m s.priority) 0
    (List.insertionSort weightDescRel autos).enum.map fun is =>
      { is.2 with priority := maxUsed + is.1 + 1 }

/-- assignUniquePriorities (fallback.go 214-236). -/
def assignUniquePriorities (servers : List UpstreamServer) : List UpstreamServer :=
  let explicits := servers.filter fun s => 0 < s.priority
  let autos := servers.filter fun s => ¬ 0 < s.priority
  let explicits2 := resolveExplicitPriorityConflicts explicits
  explicits2 ++ assignAutoPriorities autos explicits2

/-- OrderedServerList built by NewFallbackSelector (fallback.go 39-53):
unique-priority assignment followed by the final priority sort. -/
def newFallbackOrderedServers (servers : List UpstreamServer) : List UpstreamServer :=
  List.insertionSort prioWeightRel (assignUniquePriorities servers)

def c1Input : List UpstreamServer :=
  [{ url := "a", weight := 1, priority := 2, token := "", downUntil := 0 },
   { url := "b", weight := 2, priority := 2, token := "", downUntil := 0 },
   { url := "c", weight := 1, priority := 3, token := "", downUntil := 0 }]

/-- C1, counterexample: for explicit priorities 2, 2, 3 the conflict
resolution bumps the weight-1 server of the priority-2 group to
priority 3, colliding with the existing priority-3 server: the
constructed OrderedServerList has effective priorities 2, 3, 3, not
pairwise distinct. -/
theorem c1_counterexample :
    ¬ (((newFallbackOrderedServers c1Input).map fun s => s.priority).Nodup) := by
  decide

theorem filter_priority_length_le_one (l : List UpstreamServer)
    (hd : (l.map fun s => s.priority).Nodup) (p : Int) :
    (l.filter fun t => t.priority = p).length ≤ 1 := by
  induction l with
  | nil => simp
  | cons a t ih =>
      rw [List.map_cons, List.nodup_cons] at hd
      by_cases hp : a.priority = p
      · have ht : (t.filter fun u => u.priority = p) = [] := by
          rw [List.filter_eq_nil_iff]
          intro u hu
          simp only [decide_eq_true_eq]
          intro hup
          exact absurd (List.mem_map.mpr ⟨u, hu, by rw [hp]; exact hup⟩) hd.1
        rw [List.filter_cons_of_pos (by simp [hp]), ht]
        simp
      · rw [List.filter_cons_of_neg (by simp [hp])]
        exact ih hd.2

theorem resolveExplicit_of_nodup (l : List UpstreamServer)
    (hd : (l.map fun s => s.priority).Nodup) :
    resolveExplicitPriorityConflicts l = l := by
  unfold resolveExplicitPriorityConflicts
  have hall : ∀ is ∈ l.enum,
      (if priorityGroupSize l is.2.priority ≤ 1 then is.2
       else { is.2 with priority := is.2.priority + conflictRank l is.1 is.2 }) = is.2 := by
    intro is _
    exact if_pos (filter_priority_length_le_one l hd is.2.priority)
  rw [List.map_congr_left hall]
  exact List.enum_map_snd l

theorem assignAuto_map_priority (autos explicits : List UpstreamServer) :
    (assignAutoPriorities autos explicits).map (fun s => s.priority)
      = (List.range autos.length).map
          (fun i : ℕ => explicits.foldl (fun m s => max m s.priority) 0 + (i : Int) + 1) := by
  unfold assignAutoPriorities
  by_cases h : autos = []
  · subst h
    simp
  · rw [if_neg h, List.map_map]
    have hcomp : ((fun s => s.priority) ∘ fun is : ℕ × UpstreamServer =>
        ({ is.2 with
            priority := explicits.foldl (fun m s => max m s.priority) 0 + is.1 + 1 } :
          UpstreamServer))
        = fun is : ℕ × UpstreamServer =>
            explicits.foldl (fun m s => max m s.priority) 0 + (is.1 : Int) + 1 := rfl
    rw [hcomp]
    have hsplit : ((List.insertionSort weightDescRel autos).enum.map
        fun is : ℕ × UpstreamServer =>
          explicits.foldl (fun m s => max m s.priority) 0 + (is.1 : Int) + 1)
        = ((List.insertionSort weightDescRel autos).enum.map Prod.fst).map
            (fun i : ℕ => explicits.foldl (fun m s => max m s.priority) 0 + (i : Int) + 1) := by
      rw [List.map_map]
      rfl
    rw [hsplit, List.enum_map_fst, (List.perm_insertionSort weightDescRel autos).length_eq]

theorem le_foldl_max_init (l : List UpstreamServer) (a : Int) :
    a ≤ l.foldl (fun m s => max m s.priority) a := by
  induction l generalizing a with
  | nil => simp
  | cons b t ih =>
      simp only [List.foldl_cons]
      exact le_trans (le_max_left a b.priority) (ih (max a b.priority))

theorem mem_le_foldl_max (l : List UpstreamServer) (a : Int) :
    ∀ s ∈ l, s.priority ≤ l.foldl (fun m s => max m s.priority) a := by
  induction l generalizing a with
  | nil => intro s h; simp at h
  | cons b t ih =>
      intro s hs
      simp only [List.foldl_cons]
      rcases List.mem_cons.mp hs with h | h
      · subst h
        exact le_trans (le_max_right a s.priority) (le_foldl_max_init t _)
      · exact ih _ s h

theorem assignUnique_map_priority_nodup (servers : List UpstreamServer)
    (hd : ((servers.filter fun s => 0 < s.priority).map fun s => s.priority).Nodup) :
    ((assignUniquePriorities servers).map fun s => s.priority).Nodup := by
  simp only [assignUniquePriorities]
  rw [resolveExplicit_of_nodup _ hd, List.map_append]
  refine List.Nodup.append hd ?_ ?_
  · rw [assignAuto_map_priority]
    refine List.Nodup.map ?_ (List.nodup_range _)
    intro i j hij
    simp only at hij
    omega
  · intro p hp hq
    rw [List.mem_map] at hp
    obtain ⟨s, hsmem, hsp⟩ := hp
    rw [assignAuto_map_priority, List.mem_map] at hq
    obtain ⟨i, _, hip⟩ := hq
    have hle : s.priority ≤
        (servers.filter fun s => 0 < s.priority).foldl (fun m s => max m s.priority) 0 :=
      mem_le_foldl_max _ 0 s hsmem
    omega

/-- C1, amended: the constructed OrderedServerList is always sorted with
non-decreasing effective priorities; when the explicit (positive)
priorities of the input are pairwise distinct, the effective priorities
are pairwise distinct and the ordering is strictly ascending.  With
duplicate explicit priorities the conflict resolution can collide with
another group (see the counterexample), so distinctness does not hold
for every input. -/
theorem c1_amended (servers : List UpstreamServer) :
    (newFallbackOrderedServers servers).Pairwise (fun a b => a.priority ≤ b.priority) ∧
    ((((servers.filter fun s => 0 < s.priority).map fun s => s.priority).Nodup) →
      (((newFallbackOrderedServers servers).map fun s => s.priority).Nodup) ∧
      (newFallbackOrderedServers servers).Pairwise fun a b => a.priority < b.priority) := by
  have hsorted : List.Sorted prioWeightRel (newFallbackOrderedServers servers) :=
    List.sorted_insertionSort prioWeightRel (assignUniquePriorities servers)
  constructor
  · exact List.Pairwise.imp (fun h => by unfold prioWeightRel at h; omega) hsorted
  · intro hd
    have hperm : ((newFallbackOrderedServers servers).map fun s => s.priority).Perm
        ((assignUniquePriorities servers).map fun s => s.priority) :=
      (List.perm_insertionSort prioWeightRel (assignUniquePriorities servers)).map _
    have hnod : ((newFallbackOrderedServers servers).map fun s => s.priority).Nodup :=
      (hperm.nodup_iff).mpr (assignUnique_map_priority_nodup servers hd)
    refine ⟨hnod, ?_⟩
    have hne : (newFallbackOrderedServers servers).Pairwise
        fun a b => a.priority ≠ b.priority := List.pairwise_map.mp hnod
    exact List.Pairwise.imp
      (fun h => by
        obtain ⟨h1, h2⟩ := h
        unfold prioWeightRel at h1
        omega)
      (hsorted.and hne)

def c1WitnessInput : List UpstreamServer :=
  [{ url := "a", weight := 1, priority := 3, token := "", downUntil := 0 },
   { url := "b", weight := 2, priority := 1, token := "", downUntil := 0 },
   { url := "c", weight := 5, priority := 0, token := "", downUntil := 0 }]

/-- C1 amended, witness: distinct explicit priorities 3 and 1 plus one
auto-priority server give a strictly ascending duplicate-free list. -/
theorem c1_amended_witness :
    (((newFallbackOrderedServers c1WitnessInput).map fun s => s.priority).Nodup) ∧
    (newFallbackOrderedServers c1WitnessInput).Pairwise
      (fun a b => a.priority < b.priority) :=
  (c1_amended c1WitnessInput).2 (by decide)
